import Mathlib

/-!
Shallow embedding of the tinypaint drawing library (Rust), covering the
command-batching layer (`src/command.rs`), the coordinate conversion and
canvas-context layer (`src/context.rs`), the color model (`src/color.rs`)
and the vertex/event model (`src/vertex.rs`).

Modelling conventions:
- Rust `u32` values are modelled as `Nat`; where the source performs `u32`
  arithmetic that can wrap (the `x * 2` in the coordinate converters, whose
  claims quantify over all `u32` inputs), the wrap is made explicit with
  `% 2^32`.  The batching counters (`begin_index`, `count`) are modelled as
  plain `Nat`: the claims about them concern the bookkeeping structure, and
  the additions involved panic in a checked build before ever wrapping.
- Rust `f32` values (vertex coordinates, colors) are modelled as exact
  rationals `ℚ`: the conversion formulas are idealised to exact rational
  arithmetic.
- `Vec<T>` is `List T`; `Option<wgpu::Buffer>` (the uploaded vertex buffer)
  is `Option (List Vertex)` holding the snapshot of vertices uploaded.
- GPU pipeline handles carry no observable state; a draw call is recorded as
  its pipeline's primitive kind plus its vertex range and instance range.
- Panics (`unwrap`, `expect`) are modelled by `Option`/`Except` failure.
-/

namespace TinyPaint

/-- `Color` from `src/color.rs`: RGBA components, each an `f32` in the source,
modelled as exact rationals. -/
structure Color where
  r : ℚ
  g : ℚ
  b : ℚ
  a : ℚ
  deriving DecidableEq, Repr

/-- `Color::rgb` from `src/color.rs`: RGB with alpha fixed to 1. -/
def Color.rgb (r g b : ℚ) : Color :=
  { r := r, g := g, b := b, a := 1 }

/-- `Color::rgba` from `src/color.rs`. -/
def Color.rgba (r g b a : ℚ) : Color :=
  { r := r, g := g, b := b, a := a }

/-- `Color::BLACK`. -/
def Color.BLACK : Color := Color.rgba 0 0 0 1

/-- `Color::RED`. -/
def Color.RED : Color := Color.rgb 1 0 0

/-- `Color::GREEN`. -/
def Color.GREEN : Color := Color.rgb 0 1 0

/-- `Color::BLUE`. -/
def Color.BLUE : Color := Color.rgb 0 0 1

/-- `Vertex` from `src/vertex.rs`: a position in normalized device
coordinates plus a color. -/
structure Vertex where
  position : ℚ × ℚ
  color : Color
  deriving DecidableEq, Repr

/-- `DrawEvent` from `src/vertex.rs`: the tagged draw-event payload sent from
the producer context to the render loop. -/
inductive DrawEvent where
  | Point (p0 : Vertex)
  | Line (p0 p1 : Vertex)
  | Triangle (p0 p1 p2 : Vertex)
  deriving DecidableEq, Repr

/-- `DrawPrimitive` from `src/command.rs`. -/
inductive DrawPrimitive where
  | Point
  | Line
  | Triangle
  deriving DecidableEq, Repr

/-- `DrawPrimitive::vertex_count` from `src/command.rs`. -/
def DrawPrimitive.vertex_count : DrawPrimitive → Nat
  | .Point => 1
  | .Line => 2
  | .Triangle => 3

/-- `Command` from `src/command.rs`: one run-length-encoded draw command. -/
structure Command where
  primitive : DrawPrimitive
  begin_index : Nat
  count : Nat
  deriving DecidableEq, Repr

/-- `Command::new` from `src/command.rs`: a fresh command with `count = 1`. -/
def Command.new (primitive : DrawPrimitive) (begin_index : Nat) : Command :=
  { primitive := primitive, begin_index := begin_index, count := 1 }

/-- `Command::end_index` from `src/command.rs`. -/
def Command.end_index (c : Command) : Nat :=
  c.begin_index + c.count * c.primitive.vertex_count

/-- `Command::inc` from `src/command.rs`. -/
def Command.inc (c : Command) : Command :=
  { c with count := c.count + 1 }

/-- `Command::point` from `src/command.rs`. -/
def Command.point (begin_index : Nat) : Command :=
  Command.new DrawPrimitive.Point begin_index

/-- `Command::line` from `src/command.rs`. -/
def Command.line (begin_index : Nat) : Command :=
  Command.new DrawPrimitive.Line begin_index

/-- `Command::triangle` from `src/command.rs`. -/
def Command.triangle (begin_index : Nat) : Command :=
  Command.new DrawPrimitive.Triangle begin_index

/-- `Commands` from `src/command.rs` (batch state): the ordered command list,
the shared vertex sequence, and the optional uploaded vertex buffer.  The
three pre-compiled pipeline handles carry no observable state and are
omitted; a draw call records which of the three pipelines it uses via its
`DrawPrimitive` kind. -/
structure Commands where
  commands : List Command
  vertices : List Vertex
  buffer : Option (List Vertex)
  deriving DecidableEq, Repr

/-- `Commands::new` from `src/command.rs`: empty command and vertex lists, no
uploaded buffer (`buffer: None`). -/
def Commands.new : Commands :=
  { commands := [], vertices := [], buffer := none }

/-- `Commands::enqueue_point` from `src/command.rs`: extend the last command
if it is a Point run, otherwise push a fresh Point command whose begin index
is the current vertex count; then append the vertex. -/
def Commands.enqueue_point (s : Commands) (p0 : Vertex) : Commands :=
  let commands :=
    match s.commands.getLast? with
    | some command =>
      if command.primitive = DrawPrimitive.Point then
        s.commands.dropLast ++ [command.inc]
      else
        s.commands ++ [Command.point s.vertices.length]
    | none => s.commands ++ [Command.point s.vertices.length]
  { s with commands := commands, vertices := s.vertices ++ [p0] }

/-- `Commands::enqueue_line` from `src/command.rs`. -/
def Commands.enqueue_line (s : Commands) (p0 p1 : Vertex) : Commands :=
  let commands :=
    match s.commands.getLast? with
    | some command =>
      if command.primitive = DrawPrimitive.Line then
        s.commands.dropLast ++ [command.inc]
      else
        s.commands ++ [Command.line s.vertices.length]
    | none => s.commands ++ [Command.line s.vertices.length]
  { s with commands := commands, vertices := s.vertices ++ [p0, p1] }

/-- `Commands::enqueue_triangle` from `src/command.rs`. -/
def Commands.enqueue_triangle (s : Commands) (p0 p1 p2 : Vertex) : Commands :=
  let commands :=
    match s.commands.getLast? with
    | some command =>
      if command.primitive = DrawPrimitive.Triangle then
        s.commands.dropLast ++ [command.inc]
      else
        s.commands ++ [Command.triangle s.vertices.length]
    | none => s.commands ++ [Command.triangle s.vertices.length]
  { s with commands := commands, vertices := s.vertices ++ [p0, p1, p2] }

/-- `Commands::prepare` from `src/command.rs`: rebuild the uploaded vertex
buffer from the entire accumulated vertex sequence. -/
def Commands.prepare (s : Commands) : Commands :=
  { s with buffer := some s.vertices }

/-- One draw call issued by `Commands::render`: the pipeline selected by the
command's primitive kind, the vertex range `begin_index..end_index`, and the
instance range `0..1`. -/
structure DrawCall where
  pipeline : DrawPrimitive
  vertex_range : Nat × Nat
  instance_range : Nat × Nat
  deriving DecidableEq, Repr

/-- `Commands::render` from `src/command.rs`: unwraps the uploaded buffer
(`none` models the `unwrap` panic when `prepare` was never called), then
issues one draw call per command in order. -/
def Commands.render (s : Commands) : Option (List DrawCall) :=
  match s.buffer with
  | none => none
  | some _ =>
    some (s.commands.map fun c =>
      { pipeline := c.primitive
        vertex_range := (c.begin_index, c.end_index)
        instance_range := (0, 1) })

/-- One enqueue operation on the batch, tagged like `DrawEvent`; `Renderer::
handle_event` in `src/renderer.rs` forwards each event variant to the
matching `enqueue_*` method. -/
inductive EnqueueOp where
  | point (p0 : Vertex)
  | line (p0 p1 : Vertex)
  | triangle (p0 p1 p2 : Vertex)
  deriving DecidableEq, Repr

/-- The primitive kind an enqueue operation contributes. -/
def EnqueueOp.kind : EnqueueOp → DrawPrimitive
  | .point _ => .Point
  | .line _ _ => .Line
  | .triangle _ _ _ => .Triangle

/-- The vertices an enqueue operation appends, in order. -/
def EnqueueOp.opVertices : EnqueueOp → List Vertex
  | .point p0 => [p0]
  | .line p0 p1 => [p0, p1]
  | .triangle p0 p1 p2 => [p0, p1, p2]

/-- Apply one enqueue operation to a batch state. -/
def EnqueueOp.apply (s : Commands) : EnqueueOp → Commands
  | .point p0 => s.enqueue_point p0
  | .line p0 p1 => s.enqueue_line p0 p1
  | .triangle p0 p1 p2 => s.enqueue_triangle p0 p1 p2

/-- Apply a sequence of enqueue operations, left to right. -/
def Commands.applyOps (s : Commands) (ops : List EnqueueOp) : Commands :=
  ops.foldl EnqueueOp.apply s

/-- A batch state reachable from the initial empty state by some sequence of
enqueue operations. -/
def Reachable (s : Commands) : Prop :=
  ∃ ops : List EnqueueOp, s = Commands.new.applyOps ops

/-- The `u32` modulus: `x * 2` in the coordinate converters is 32-bit
arithmetic and wraps at this bound. -/
def U32_MOD : Nat := 4294967296

/-- `convert_x` from `src/context.rs`: `(x * 2) as f32 / max as f32 - 1.0`,
idealised to exact rationals; the `u32` product `x * 2` wraps modulo `2^32`. -/
def convert_x (x max : Nat) : ℚ :=
  ((x * 2) % U32_MOD : Nat) / (max : ℚ) - 1

/-- `convert_y` from `src/context.rs`: `1.0 - (y * 2) as f32 / max as f32`,
idealised to exact rationals; the `u32` product `y * 2` wraps modulo `2^32`. -/
def convert_y (y max : Nat) : ℚ :=
  1 - ((y * 2) % U32_MOD : Nat) / (max : ℚ)

/-- Modelled from the spec: the winit `EventLoopProxy` held by the canvas
context is not part of this repository.  Per §4.3/§7 of the spec it is a
many-producer/single-consumer channel endpoint into the render loop; once the
render/event loop has exited, posting on it fails with a channel-closed
error because no reader is left.  Modelled as a flag recording whether the
loop has exited. -/
structure EventLoopProxy where
  loopExited : Bool
  deriving DecidableEq, Repr

/-- Modelled from the spec: the error a post on the proxy returns once the
event loop has exited (winit's `EventLoopClosed`, the defined
"channel closed" error condition). -/
inductive SendError where
  | eventLoopClosed
  deriving DecidableEq, Repr

/-- Modelled from the spec: `EventLoopProxy::send_event` delivers the event
to the render loop while it runs and fails with the channel-closed error
after the loop has exited. -/
def EventLoopProxy.send_event (proxy : EventLoopProxy) (event : DrawEvent) :
    Except SendError DrawEvent :=
  if proxy.loopExited then Except.error SendError.eventLoopClosed
  else Except.ok event

/-- `CanvasContext` from `src/context.rs`: a dimensions snapshot plus the
event-loop proxy endpoint. -/
structure CanvasContext where
  width : Nat
  height : Nat
  proxy : EventLoopProxy
  deriving DecidableEq, Repr

/-- `CanvasContext::convert_point` from `src/context.rs`: pixel coordinates
to a device-space vertex, attaching the color unchanged. -/
def CanvasContext.convert_point (ctx : CanvasContext) (p : Nat × Nat)
    (color : Color) : Vertex :=
  { position := (convert_x p.1 ctx.width, convert_y p.2 ctx.height)
    color := color }

/-- `CanvasContext::draw_point` from `src/context.rs`: convert the point,
then post a `DrawEvent::Point` on the proxy.  The source calls
`.expect("Failed to send draw event")` on the post, so a failed post panics:
the `Except.error` outcome models that panic (the call does not return
normally), while `Except.ok` carries the event that was posted. -/
def CanvasContext.draw_point (ctx : CanvasContext) (p0 : Nat × Nat)
    (color : Color) : Except SendError DrawEvent :=
  let v0 := ctx.convert_point p0 color
  ctx.proxy.send_event (DrawEvent.Point v0)

/-- `CanvasContext::draw_line` from `src/context.rs`; panics on a failed
post, as in `draw_point`. -/
def CanvasContext.draw_line (ctx : CanvasContext) (p0 p1 : Nat × Nat)
    (color : Color) : Except SendError DrawEvent :=
  let v0 := ctx.convert_point p0 color
  let v1 := ctx.convert_point p1 color
  ctx.proxy.send_event (DrawEvent.Line v0 v1)

/-- `CanvasContext::draw_triangle` from `src/context.rs`; panics on a failed
post, as in `draw_point`. -/
def CanvasContext.draw_triangle (ctx : CanvasContext) (p0 p1 p2 : Nat × Nat)
    (color : Color) : Except SendError DrawEvent :=
  let v0 := ctx.convert_point p0 color
  let v1 := ctx.convert_point p1 color
  let v2 := ctx.convert_point p2 color
  ctx.proxy.send_event (DrawEvent.Triangle v0 v1 v2)

/-! ### Shared lemmas about the enqueue operations -/

/-- Every enqueue operation appends exactly its vertices at the tail. -/
theorem EnqueueOp.apply_vertices (s : Commands) (o : EnqueueOp) :
    (o.apply s).vertices = s.vertices ++ o.opVertices := by
  cases o <;> rfl

/-- The commands produced by one enqueue: extend the last command when it has
the operation's kind, otherwise push a fresh command beginning at the current
vertex count. -/
theorem EnqueueOp.apply_commands (s : Commands) (o : EnqueueOp) :
    (o.apply s).commands =
      match s.commands.getLast? with
      | some command =>
        if command.primitive = o.kind then
          s.commands.dropLast ++ [command.inc]
        else
          s.commands ++ [Command.new o.kind s.vertices.length]
      | none => s.commands ++ [Command.new o.kind s.vertices.length] := by
  cases o <;> rfl

/-- An enqueue never touches the uploaded buffer. -/
theorem EnqueueOp.apply_buffer (s : Commands) (o : EnqueueOp) :
    (o.apply s).buffer = s.buffer := by
  cases o <;> rfl

/-- The number of vertices an operation appends is the vertex count of its
primitive kind. -/
theorem EnqueueOp.opVertices_length (o : EnqueueOp) :
    o.opVertices.length = o.kind.vertex_count := by
  cases o <;> rfl

/-- Merge case of the enqueue rule. -/
theorem EnqueueOp.apply_commands_merge (s : Commands) (o : EnqueueOp)
    (c : Command) (hc : s.commands.getLast? = some c)
    (hk : c.primitive = o.kind) :
    (o.apply s).commands = s.commands.dropLast ++ [c.inc] := by
  rw [EnqueueOp.apply_commands, hc]
  simp [hk]

/-- Push case of the enqueue rule, when the last command has another kind. -/
theorem EnqueueOp.apply_commands_push (s : Commands) (o : EnqueueOp)
    (c : Command) (hc : s.commands.getLast? = some c)
    (hk : c.primitive ≠ o.kind) :
    (o.apply s).commands = s.commands ++ [Command.new o.kind s.vertices.length] := by
  rw [EnqueueOp.apply_commands, hc]
  simp [hk]

/-- Push case of the enqueue rule, when there is no command yet. -/
theorem EnqueueOp.apply_commands_empty (s : Commands) (o : EnqueueOp)
    (hc : s.commands.getLast? = none) :
    (o.apply s).commands = s.commands ++ [Command.new o.kind s.vertices.length] := by
  rw [EnqueueOp.apply_commands, hc]

/-- Unfolding one step of `applyOps`. -/
theorem Commands.applyOps_cons (s : Commands) (o : EnqueueOp)
    (ops : List EnqueueOp) :
    s.applyOps (o :: ops) = (o.apply s).applyOps ops := rfl

/-- `applyOps` on the empty list. -/
theorem Commands.applyOps_nil (s : Commands) : s.applyOps [] = s := rfl

/-- The vertex sequence after a batch of operations: the old sequence with
each operation's vertices appended in order. -/
theorem Commands.applyOps_vertices (ops : List EnqueueOp) (s : Commands) :
    (s.applyOps ops).vertices =
      s.vertices ++ (ops.map EnqueueOp.opVertices).flatten := by
  induction ops generalizing s with
  | nil => simp [Commands.applyOps_nil]
  | cons o rest ih =>
    rw [Commands.applyOps_cons, ih, EnqueueOp.apply_vertices]
    simp

/-! ### The reachable-state invariant: contiguous runs with alternating kinds -/

/-- `CmdChainTo n m l`: the commands `l` tile the vertex index interval from
`n` to `m` without gaps: each command begins where the previous one ended. -/
def CmdChainTo (n m : Nat) : List Command → Prop
  | [] => n = m
  | c :: rest => c.begin_index = n ∧ CmdChainTo c.end_index m rest

/-- Unfolding `CmdChainTo` on the empty list. -/
@[simp] theorem cmdChainTo_nil {n m : Nat} : CmdChainTo n m [] ↔ n = m :=
  Iff.rfl

/-- Unfolding `CmdChainTo` on a cons. -/
@[simp] theorem cmdChainTo_cons {n m : Nat} {c : Command} {l : List Command} :
    CmdChainTo n m (c :: l) ↔
      c.begin_index = n ∧ CmdChainTo c.end_index m l :=
  Iff.rfl

/-- Splitting a command chain across an append. -/
theorem cmdChainTo_append {n m : Nat} {l1 l2 : List Command} :
    CmdChainTo n m (l1 ++ l2) ↔
      ∃ k, CmdChainTo n k l1 ∧ CmdChainTo k m l2 := by
  induction l1 generalizing n with
  | nil => simp
  | cons c rest ih =>
    simp only [List.cons_append, cmdChainTo_cons, ih]
    constructor
    · rintro ⟨hb, k, h1, h2⟩
      exact ⟨k, ⟨hb, h1⟩, h2⟩
    · rintro ⟨k, ⟨hb, h1⟩, h2⟩
      exact ⟨hb, k, h1, h2⟩

/-- A singleton command chain. -/
theorem cmdChainTo_singleton {n m : Nat} {c : Command} :
    CmdChainTo n m [c] ↔ c.begin_index = n ∧ c.end_index = m := by
  simp

/-- Incrementing a command advances its end index by one primitive's worth
of vertices. -/
theorem Command.inc_end_index (c : Command) :
    c.inc.end_index = c.end_index + c.primitive.vertex_count := by
  simp [Command.inc, Command.end_index, Nat.succ_mul, Nat.add_assoc]

/-- Incrementing a command keeps its primitive kind. -/
@[simp] theorem Command.inc_primitive (c : Command) :
    c.inc.primitive = c.primitive := rfl

/-- Incrementing a command adds one to its count. -/
@[simp] theorem Command.inc_count (c : Command) :
    c.inc.count = c.count + 1 := rfl

/-- Incrementing a command keeps its begin index. -/
@[simp] theorem Command.inc_begin_index (c : Command) :
    c.inc.begin_index = c.begin_index := rfl

/-- The primitive kind of a fresh command. -/
@[simp] theorem Command.new_primitive (p : DrawPrimitive) (b : Nat) :
    (Command.new p b).primitive = p := rfl

/-- The count of a fresh command. -/
@[simp] theorem Command.new_count (p : DrawPrimitive) (b : Nat) :
    (Command.new p b).count = 1 := rfl

/-- The begin index of a fresh command. -/
@[simp] theorem Command.new_begin_index (p : DrawPrimitive) (b : Nat) :
    (Command.new p b).begin_index = b := rfl

/-- The invariant maintained by every enqueue: the commands tile the vertex
sequence exactly from index 0 to its length, and adjacent commands always
have distinct primitive kinds. -/
def Inv (s : Commands) : Prop :=
  CmdChainTo 0 s.vertices.length s.commands ∧
  List.Chain' (fun a b => a.primitive ≠ b.primitive) s.commands

/-- One enqueue operation preserves the batch invariant. -/
theorem inv_preserved (s : Commands) (o : EnqueueOp) (h : Inv s) :
    Inv (o.apply s) := by
  obtain ⟨hchain, hadj⟩ := h
  have hvlen : (o.apply s).vertices.length =
      s.vertices.length + o.kind.vertex_count := by
    rw [EnqueueOp.apply_vertices]
    simp [EnqueueOp.opVertices_length]
  cases hlast : s.commands.getLast? with
  | none =>
    have hnil : s.commands = [] := List.getLast?_eq_none_iff.mp hlast
    have hlen0 : s.vertices.length = 0 := by
      rw [hnil] at hchain
      exact (cmdChainTo_nil.mp hchain).symm
    rw [Inv, EnqueueOp.apply_commands_empty s o hlast, hvlen, hnil]
    constructor
    · simp only [List.nil_append, cmdChainTo_singleton]
      constructor
      · simp [Command.new, hlen0]
      · simp [Command.new, Command.end_index, hlen0]
    · simp
  | some c =>
    have hne : s.commands ≠ [] := by
      intro hcon
      rw [hcon] at hlast
      exact Option.noConfusion hlast
    have hdecomp : s.commands.dropLast ++ [c] = s.commands := by
      have := List.dropLast_concat_getLast hne
      rwa [(List.getLast_eq_iff_getLast_eq_some hne).mpr hlast] at this
    by_cases hk : c.primitive = o.kind
    · -- merge: the last command is extended
      rw [Inv, EnqueueOp.apply_commands_merge s o c hlast hk, hvlen]
      rw [← hdecomp] at hchain hadj
      obtain ⟨k, h1, h2⟩ := cmdChainTo_append.mp hchain
      obtain ⟨hb, he⟩ := cmdChainTo_singleton.mp h2
      constructor
      · refine cmdChainTo_append.mpr ⟨k, h1, cmdChainTo_singleton.mpr ⟨?_, ?_⟩⟩
        · simpa [Command.inc] using hb
        · rw [Command.inc_end_index, he, hk]
      · rw [List.chain'_append] at hadj ⊢
        refine ⟨hadj.1, List.chain'_singleton _, ?_⟩
        intro x hx y hy
        simp only [List.head?_cons, Option.mem_def, Option.some.injEq] at hy
        subst hy
        rw [Command.inc_primitive]
        exact hadj.2.2 x hx c (by simp)
    · -- push: a fresh command of the new kind is appended
      rw [Inv, EnqueueOp.apply_commands_push s o c hlast hk, hvlen]
      constructor
      · refine cmdChainTo_append.mpr ⟨s.vertices.length, hchain,
          cmdChainTo_singleton.mpr ⟨rfl, ?_⟩⟩
        simp [Command.new, Command.end_index]
      · rw [List.chain'_append]
        refine ⟨hadj, List.chain'_singleton _, ?_⟩
        intro x hx y hy
        simp only [List.head?_cons, Option.mem_def, Option.some.injEq] at hy
        subst hy
        have hx' : x = c := by
          rw [hlast] at hx
          simp only [Option.mem_def, Option.some.injEq] at hx
          exact hx.symm
        rw [hx']
        simpa [Command.new] using hk

/-- The invariant holds in the initial state and is preserved by any batch of
operations. -/
theorem inv_applyOps (s : Commands) (ops : List EnqueueOp) (h : Inv s) :
    Inv (s.applyOps ops) := by
  induction ops generalizing s with
  | nil => exact h
  | cons o rest ih =>
    rw [Commands.applyOps_cons]
    exact ih _ (inv_preserved s o h)

/-- Every reachable batch state satisfies the invariant. -/
theorem reachable_inv (s : Commands) (hs : Reachable s) : Inv s := by
  obtain ⟨ops, rfl⟩ := hs
  exact inv_applyOps Commands.new ops ⟨rfl, List.chain'_nil⟩

/-- A command chain yields contiguity of adjacent commands. -/
theorem cmdChainTo_contiguous :
    ∀ (l : List Command) (n m : Nat), CmdChainTo n m l →
      List.Chain' (fun a b => a.end_index = b.begin_index) l := by
  intro l
  induction l with
  | nil => intro n m _; exact List.chain'_nil
  | cons c rest ih =>
    intro n m h
    obtain ⟨hb, hrest⟩ := h
    cases rest with
    | nil => exact List.chain'_singleton c
    | cons c2 r2 =>
      obtain ⟨hb2, htail⟩ := cmdChainTo_cons.mp hrest
      exact List.Chain'.cons hb2.symm (ih _ _ (cmdChainTo_cons.mpr ⟨hb2, htail⟩))

/-- Two chain conditions combine pointwise. -/
theorem chain'_and {α : Type} {R S : α → α → Prop} {l : List α}
    (hR : l.Chain' R) (hS : l.Chain' S) :
    l.Chain' fun a b => R a b ∧ S a b := by
  rw [List.chain'_iff_get] at hR hS ⊢
  exact fun i h => ⟨hR i h, hS i h⟩

/-! ### Claim theorems -/

/-- A sample vertex used to instantiate witness scenarios. -/
def vSample : Vertex :=
  { position := (0, 0), color := Color.BLACK }

/-- Claim C1: an enqueue extends the most recent command exactly when it has
the same primitive kind, and otherwise pushes a new command whose begin index
is the vertex-sequence length before the append; hence enqueuing kinds
A, A, B, A from any state whose last command is not of kind A yields exactly
3 new commands with counts [2,1,1], and enqueuing one point, one line and one
triangle on an empty batch yields 3 commands with kinds
[Point, Line, Triangle], counts [1,1,1], and 6 vertices. -/
theorem enqueue_merge_rule :
    (∀ (s : Commands) (o : EnqueueOp),
      (∀ c, s.commands.getLast? = some c → c.primitive = o.kind →
        (o.apply s).commands = s.commands.dropLast ++ [c.inc]) ∧
      (∀ c, s.commands.getLast? = some c → c.primitive ≠ o.kind →
        (o.apply s).commands =
          s.commands ++ [Command.new o.kind s.vertices.length]) ∧
      (s.commands.getLast? = none →
        (o.apply s).commands =
          s.commands ++ [Command.new o.kind s.vertices.length]) ∧
      (o.apply s).vertices = s.vertices ++ o.opVertices) ∧
    (∀ (A B : DrawPrimitive) (o1 o2 o3 o4 : EnqueueOp) (s : Commands),
      o1.kind = A → o2.kind = A → o3.kind = B → o4.kind = A → A ≠ B →
      (∀ c, s.commands.getLast? = some c → c.primitive ≠ A) →
      (s.applyOps [o1, o2, o3, o4]).commands.length = s.commands.length + 3 ∧
      ((s.applyOps [o1, o2, o3, o4]).commands.drop s.commands.length).map
        Command.count = [2, 1, 1]) ∧
    (∀ v1 v2 v3 v4 v5 v6 : Vertex,
      (Commands.new.applyOps [EnqueueOp.point v1, EnqueueOp.line v2 v3,
        EnqueueOp.triangle v4 v5 v6]).commands.map Command.primitive =
          [DrawPrimitive.Point, DrawPrimitive.Line, DrawPrimitive.Triangle] ∧
      (Commands.new.applyOps [EnqueueOp.point v1, EnqueueOp.line v2 v3,
        EnqueueOp.triangle v4 v5 v6]).commands.map Command.count = [1, 1, 1] ∧
      (Commands.new.applyOps [EnqueueOp.point v1, EnqueueOp.line v2 v3,
        EnqueueOp.triangle v4 v5 v6]).commands.length = 3 ∧
      (Commands.new.applyOps [EnqueueOp.point v1, EnqueueOp.line v2 v3,
        EnqueueOp.triangle v4 v5 v6]).vertices.length = 6) := by
  refine ⟨?_, ?_, ?_⟩
  · intro s o
    exact ⟨fun c hc hk => EnqueueOp.apply_commands_merge s o c hc hk,
      fun c hc hk => EnqueueOp.apply_commands_push s o c hc hk,
      fun hc => EnqueueOp.apply_commands_empty s o hc,
      EnqueueOp.apply_vertices s o⟩
  · intro A B o1 o2 o3 o4 s h1 h2 h3 h4 hAB hlast
    have e1 : (o1.apply s).commands =
        s.commands ++ [Command.new A s.vertices.length] := by
      rw [← h1]
      cases hl : s.commands.getLast? with
      | none => exact EnqueueOp.apply_commands_empty s o1 hl
      | some c =>
        refine EnqueueOp.apply_commands_push s o1 c hl ?_
        rw [h1]
        exact hlast c hl
    have l1 : (o1.apply s).commands.getLast? =
        some (Command.new A s.vertices.length) := by
      rw [e1]
      exact List.getLast?_concat _
    have e2 : (o2.apply (o1.apply s)).commands =
        s.commands ++ [(Command.new A s.vertices.length).inc] := by
      rw [EnqueueOp.apply_commands_merge (o1.apply s) o2 _ l1 (by simp [h2]),
        e1, List.dropLast_concat]
    have l2 : (o2.apply (o1.apply s)).commands.getLast? =
        some ((Command.new A s.vertices.length).inc) := by
      rw [e2]
      exact List.getLast?_concat _
    have e3 : (o3.apply (o2.apply (o1.apply s))).commands =
        (s.commands ++ [(Command.new A s.vertices.length).inc]) ++
          [Command.new o3.kind (o2.apply (o1.apply s)).vertices.length] := by
      rw [EnqueueOp.apply_commands_push (o2.apply (o1.apply s)) o3 _ l2
        (by simp [h3]; exact hAB), e2]
    have l3 : (o3.apply (o2.apply (o1.apply s))).commands.getLast? =
        some (Command.new o3.kind (o2.apply (o1.apply s)).vertices.length) := by
      rw [e3]
      exact List.getLast?_concat _
    have e4 : (o4.apply (o3.apply (o2.apply (o1.apply s)))).commands =
        ((s.commands ++ [(Command.new A s.vertices.length).inc]) ++
          [Command.new o3.kind (o2.apply (o1.apply s)).vertices.length]) ++
          [Command.new o4.kind
            (o3.apply (o2.apply (o1.apply s))).vertices.length] := by
      rw [EnqueueOp.apply_commands_push (o3.apply (o2.apply (o1.apply s))) o4 _
        l3 (by simp [h3, h4]; exact fun h => hAB h.symm), e3]
    have eAll : (s.applyOps [o1, o2, o3, o4]).commands =
        s.commands ++
          [(Command.new A s.vertices.length).inc,
            Command.new o3.kind (o2.apply (o1.apply s)).vertices.length,
            Command.new o4.kind
              (o3.apply (o2.apply (o1.apply s))).vertices.length] := by
      show (o4.apply (o3.apply (o2.apply (o1.apply s)))).commands = _
      rw [e4]
      simp [List.append_assoc]
    constructor
    · rw [eAll]
      simp
    · rw [eAll, List.drop_left]
      simp
  · intro v1 v2 v3 v4 v5 v6
    exact ⟨rfl, rfl, rfl, rfl⟩

/-- Witness for C1: the merge-rule consequences at concrete inputs: enqueuing
Point, Point, Line, Point on the empty batch yields 3 commands with counts
[2,1,1]. -/
theorem enqueue_merge_rule_witness :
    (Commands.new.applyOps [EnqueueOp.point vSample, EnqueueOp.point vSample,
      EnqueueOp.line vSample vSample,
      EnqueueOp.point vSample]).commands.length =
        Commands.new.commands.length + 3 ∧
    ((Commands.new.applyOps [EnqueueOp.point vSample, EnqueueOp.point vSample,
      EnqueueOp.line vSample vSample,
      EnqueueOp.point vSample]).commands.drop
        Commands.new.commands.length).map Command.count = [2, 1, 1] :=
  enqueue_merge_rule.2.1 DrawPrimitive.Point DrawPrimitive.Line
    (EnqueueOp.point vSample) (EnqueueOp.point vSample)
    (EnqueueOp.line vSample vSample) (EnqueueOp.point vSample)
    Commands.new rfl rfl rfl rfl (by decide) (by simp [Commands.new])

/-- Claim C2: in every reachable batch state every command satisfies
end-index minus begin-index equals count times vertices-per-primitive, with
vertices-per-primitive exactly 1 for Point, 2 for Line, 3 for Triangle. -/
theorem vertex_count_invariant (s : Commands) (_hs : Reachable s) :
    (∀ c ∈ s.commands,
      c.end_index - c.begin_index = c.count * c.primitive.vertex_count) ∧
    DrawPrimitive.Point.vertex_count = 1 ∧
    DrawPrimitive.Line.vertex_count = 2 ∧
    DrawPrimitive.Triangle.vertex_count = 3 := by
  refine ⟨fun c _ => ?_, rfl, rfl, rfl⟩
  simp only [Command.end_index]
  exact Nat.add_sub_cancel_left _ _

/-- The single command produced by one point enqueue on the empty batch; used
by witness scenarios. -/
def cSample : Command :=
  { primitive := DrawPrimitive.Point, begin_index := 0, count := 1 }

/-- Witness for C2: the invariant at the state reached by one point enqueue,
for its single command. -/
theorem vertex_count_invariant_witness :
    cSample.end_index - cSample.begin_index =
      cSample.count * cSample.primitive.vertex_count :=
  (vertex_count_invariant (Commands.new.applyOps [EnqueueOp.point vSample])
    ⟨[EnqueueOp.point vSample], rfl⟩).1 cSample (by decide)

/-- Claim C4 (amended): in every reachable batch state adjacent commands are
contiguous — the end-index of command i always equals the begin-index of
command i+1 (the claim's "may fail to equal" never happens) — adjacent
commands always have distinct primitive kinds (differing kinds are never
merged), and every command's end-index equals begin-index plus count times
vertices-per-primitive. -/
theorem command_contiguity (s : Commands) (hs : Reachable s) :
    List.Chain'
      (fun a b => a.end_index = b.begin_index ∧ a.primitive ≠ b.primitive)
      s.commands ∧
    ∀ c ∈ s.commands,
      c.end_index = c.begin_index + c.count * c.primitive.vertex_count := by
  obtain ⟨hchain, hadj⟩ := reachable_inv s hs
  exact ⟨chain'_and (cmdChainTo_contiguous s.commands 0 s.vertices.length hchain)
    hadj, fun c _ => rfl⟩

/-- Witness for C4: the amended properties at the concrete state reached by
enqueuing one point and then one line. -/
theorem command_contiguity_witness :
    List.Chain'
      (fun a b => a.end_index = b.begin_index ∧ a.primitive ≠ b.primitive)
      (Commands.new.applyOps
        [EnqueueOp.point vSample, EnqueueOp.line vSample vSample]).commands ∧
    ∀ c ∈ (Commands.new.applyOps
        [EnqueueOp.point vSample, EnqueueOp.line vSample vSample]).commands,
      c.end_index = c.begin_index + c.count * c.primitive.vertex_count :=
  command_contiguity
    (Commands.new.applyOps
      [EnqueueOp.point vSample, EnqueueOp.line vSample vSample])
    ⟨[EnqueueOp.point vSample, EnqueueOp.line vSample vSample], rfl⟩

/-- Counterexample for C4 as stated: the claim that the end-index of command
i "may fail to equal" the begin-index of command i+1 is false — no reachable
batch state contains adjacent commands whose indices disagree. -/
theorem command_contiguity_cex :
    ¬ ∃ s : Commands, Reachable s ∧ ∃ i : Nat, ∃ h : i + 1 < s.commands.length,
      (s.commands.get ⟨i, Nat.lt_of_succ_lt h⟩).end_index ≠
        (s.commands.get ⟨i + 1, h⟩).begin_index := by
  rintro ⟨s, hs, i, h, hne⟩
  obtain ⟨hchain, _⟩ := reachable_inv s hs
  have hcontig := cmdChainTo_contiguous s.commands 0 s.vertices.length hchain
  rw [List.chain'_iff_get] at hcontig
  exact hne (hcontig i (by omega))

/-- Claim C5: the vertex sequence is append-only: after any sequence of
enqueue operations its length is the sum of the operations' vertex
contributions (1 per point, 2 per line, 3 per triangle), no operation ever
shrinks it, and previously appended vertices are never removed or reordered
(the old sequence stays a prefix, with each operation's vertices appended in
order). -/
theorem append_only :
    (∀ ops : List EnqueueOp,
      (Commands.new.applyOps ops).vertices.length =
        (ops.map fun o => o.opVertices.length).sum) ∧
    (∀ p0, (EnqueueOp.point p0).opVertices.length = 1) ∧
    (∀ p0 p1, (EnqueueOp.line p0 p1).opVertices.length = 2) ∧
    (∀ p0 p1 p2, (EnqueueOp.triangle p0 p1 p2).opVertices.length = 3) ∧
    (∀ (s : Commands) (o : EnqueueOp),
      s.vertices.length ≤ (o.apply s).vertices.length) ∧
    (∀ (s : Commands) (ops : List EnqueueOp),
      (s.applyOps ops).vertices =
        s.vertices ++ (ops.map EnqueueOp.opVertices).flatten) := by
  refine ⟨?_, fun p0 => rfl, fun p0 p1 => rfl, fun p0 p1 p2 => rfl, ?_, ?_⟩
  · intro ops
    rw [Commands.applyOps_vertices]
    simp only [Commands.new, List.nil_append, List.length_flatten,
      List.map_map]
    rfl
  · intro s o
    rw [EnqueueOp.apply_vertices]
    simp
  · intro s ops
    exact Commands.applyOps_vertices ops s

/-- Claim C8: render determinism: identical enqueue sequences applied to two
initially empty batches yield identical ordered draw-call lists, and
repeating prepare followed by render with no intervening enqueues issues the
same ordered draw-call list again. -/
theorem render_deterministic :
    (∀ ops1 ops2 : List EnqueueOp, ops1 = ops2 →
      ((Commands.new.applyOps ops1).prepare).render =
        ((Commands.new.applyOps ops2).prepare).render) ∧
    (∀ ops : List EnqueueOp,
      (((Commands.new.applyOps ops).prepare).prepare).render =
        ((Commands.new.applyOps ops).prepare).render ∧
      ∃ calls, ((Commands.new.applyOps ops).prepare).render = some calls) := by
  refine ⟨fun ops1 ops2 h => by rw [h], fun ops => ⟨rfl, ?_⟩⟩
  exact ⟨_, rfl⟩

/-- Witness for C8: determinism at a concrete one-point enqueue sequence. -/
theorem render_deterministic_witness :
    ((Commands.new.applyOps [EnqueueOp.point vSample]).prepare).render =
      ((Commands.new.applyOps [EnqueueOp.point vSample]).prepare).render :=
  render_deterministic.1 [EnqueueOp.point vSample] [EnqueueOp.point vSample]
    rfl

/-- Claim C9: once the render/event loop has exited, every draw call fails
with the channel-closed error condition instead of returning normally (the
`expect` in the source turns the failed post into a panic, modelled as the
`Except.error` outcome). -/
theorem draw_after_exit_fails (ctx : CanvasContext) (p0 p1 p2 : Nat × Nat)
    (color : Color) (h : ctx.proxy.loopExited = true) :
    ctx.draw_point p0 color = Except.error SendError.eventLoopClosed ∧
    ctx.draw_line p0 p1 color = Except.error SendError.eventLoopClosed ∧
    ctx.draw_triangle p0 p1 p2 color = Except.error SendError.eventLoopClosed := by
  refine ⟨?_, ?_, ?_⟩ <;>
    simp [CanvasContext.draw_point, CanvasContext.draw_line,
      CanvasContext.draw_triangle, EventLoopProxy.send_event, h]

/-- Witness for C9: a concrete context whose loop has exited. -/
theorem draw_after_exit_fails_witness :
    CanvasContext.draw_point
        { width := 800, height := 600, proxy := { loopExited := true } }
        (20, 20) Color.RED = Except.error SendError.eventLoopClosed ∧
    CanvasContext.draw_line
        { width := 800, height := 600, proxy := { loopExited := true } }
        (20, 20) (30, 30) Color.RED = Except.error SendError.eventLoopClosed ∧
    CanvasContext.draw_triangle
        { width := 800, height := 600, proxy := { loopExited := true } }
        (20, 20) (30, 30) (40, 40) Color.RED =
      Except.error SendError.eventLoopClosed :=
  draw_after_exit_fails
    { width := 800, height := 600, proxy := { loopExited := true } }
    (20, 20) (30, 30) (40, 40) Color.RED rfl

/-- Claim C10: the uploaded-buffer handle is none at construction, enqueues
never change it, and it becomes some only via prepare; render unwraps it, so
render panics (returns no draw list) when prepare has never been called, and
once the buffer is present render issues exactly one draw call per
accumulated command. -/
theorem render_requires_prepare :
    Commands.new.buffer = none ∧
    (∀ (s : Commands) (o : EnqueueOp), (o.apply s).buffer = s.buffer) ∧
    (∀ s : Commands, (s.prepare).buffer = some s.vertices) ∧
    (∀ s : Commands, s.buffer = none → s.render = none) ∧
    (∀ s : Commands, s.buffer.isSome → ∃ calls, s.render = some calls ∧
      calls.length = s.commands.length) := by
  refine ⟨rfl, EnqueueOp.apply_buffer, fun s => rfl, ?_, ?_⟩
  · intro s h
    simp [Commands.render, h]
  · intro s h
    match hb : s.buffer with
    | none => rw [hb] at h; exact absurd h (by simp)
    | some vs =>
      refine ⟨s.commands.map fun c =>
        { pipeline := c.primitive
          vertex_range := (c.begin_index, c.end_index)
          instance_range := (0, 1) }, ?_, ?_⟩
      · simp [Commands.render, hb]
      · simp

/-- Witness for C10: on the freshly constructed batch render panics, and
after prepare it issues one draw call per command. -/
theorem render_requires_prepare_witness :
    Commands.new.render = none ∧
    ∃ calls, (Commands.new.prepare).render = some calls ∧
      calls.length = (Commands.new.prepare).commands.length :=
  ⟨render_requires_prepare.2.2.2.1 Commands.new rfl,
    render_requires_prepare.2.2.2.2 Commands.new.prepare rfl⟩

/-- Below the `u32` wrap bound, `convert_x` computes the ideal formula
`2x / max - 1`. -/
theorem convert_x_eq (x max : Nat) (hx : x < 2 ^ 31) :
    convert_x x max = 2 * (x : ℚ) / (max : ℚ) - 1 := by
  have h31 : (2 : ℕ) ^ 31 = 2147483648 := by norm_num
  have hlt : x * 2 < U32_MOD := by
    rw [h31] at hx
    simp only [U32_MOD]
    omega
  rw [convert_x, Nat.mod_eq_of_lt hlt]
  push_cast
  ring

/-- Below the `u32` wrap bound, `convert_y` computes the ideal formula
`1 - 2y / max`. -/
theorem convert_y_eq (y max : Nat) (hy : y < 2 ^ 31) :
    convert_y y max = 1 - 2 * (y : ℚ) / (max : ℚ) := by
  have h31 : (2 : ℕ) ^ 31 = 2147483648 := by norm_num
  have hlt : y * 2 < U32_MOD := by
    rw [h31] at hy
    simp only [U32_MOD]
    omega
  rw [convert_y, Nat.mod_eq_of_lt hlt]
  push_cast
  ring

/-- Claim C3 (amended): for every max with 0 < max < 2^31 (so that the `u32`
product `max * 2` does not wrap), `convert_x` maps 0 to -1, max to 1 and
max/2 within 1/max of 0; `convert_y` is the sign-flipped analogue; and for
every x < 2^31 the conversions compute `2x/max - 1` and `1 - 2x/max`, in the
exact-rational idealisation of the `f32` arithmetic. -/
theorem convert_endpoints (x max : Nat) (hmax0 : 0 < max)
    (hmax : max < 2 ^ 31) (hx : x < 2 ^ 31) :
    convert_x 0 max = -1 ∧ convert_x max max = 1 ∧
    |convert_x (max / 2) max| ≤ 1 / (max : ℚ) ∧
    convert_y 0 max = 1 ∧ convert_y max max = -1 ∧
    |convert_y (max / 2) max| ≤ 1 / (max : ℚ) ∧
    convert_x x max = 2 * (x : ℚ) / (max : ℚ) - 1 ∧
    convert_y x max = 1 - 2 * (x : ℚ) / (max : ℚ) := by
  have hmq : (0 : ℚ) < (max : ℚ) := by exact_mod_cast hmax0
  have hm0 : (max : ℚ) ≠ 0 := ne_of_gt hmq
  have hhalf_lt : max / 2 < 2 ^ 31 := lt_of_le_of_lt (Nat.div_le_self _ _) hmax
  have hcast : 2 * ((max / 2 : ℕ) : ℚ) + ((max % 2 : ℕ) : ℚ) = (max : ℚ) := by
    exact_mod_cast Nat.div_add_mod max 2
  have hr1 : ((max % 2 : ℕ) : ℚ) ≤ 1 := by
    exact_mod_cast Nat.le_of_lt_succ (Nat.mod_lt max (by norm_num))
  have hr0 : (0 : ℚ) ≤ ((max % 2 : ℕ) : ℚ) := Nat.cast_nonneg _
  have hxval : convert_x (max / 2) max =
      -(((max % 2 : ℕ) : ℚ) / (max : ℚ)) := by
    rw [convert_x_eq (max / 2) max hhalf_lt]
    field_simp
    linarith
  have hyval : convert_y (max / 2) max = ((max % 2 : ℕ) : ℚ) / (max : ℚ) := by
    rw [convert_y_eq (max / 2) max hhalf_lt]
    field_simp
    linarith
  have hbound : ((max % 2 : ℕ) : ℚ) / (max : ℚ) ≤ 1 / (max : ℚ) := by
    gcongr
  refine ⟨?_, ?_, ?_, ?_, ?_, ?_, convert_x_eq x max hx, convert_y_eq x max hx⟩
  · rw [convert_x_eq 0 max (by norm_num)]
    simp
  · rw [convert_x_eq max max hmax]
    field_simp
    norm_num
  · rw [hxval, abs_neg, abs_of_nonneg (div_nonneg hr0 (le_of_lt hmq))]
    exact hbound
  · rw [convert_y_eq 0 max (by norm_num)]
    simp
  · rw [convert_y_eq max max hmax]
    field_simp
    ring
  · rw [hyval, abs_of_nonneg (div_nonneg hr0 (le_of_lt hmq))]
    exact hbound

/-- Witness for C3: the amended endpoint properties at max = 800, x = 20. -/
theorem convert_endpoints_witness :
    (0 < 800 ∧ 800 < 2 ^ 31 ∧ 20 < 2 ^ 31) ∧
    (convert_x 0 800 = -1 ∧ convert_x 800 800 = 1 ∧
      |convert_x (800 / 2) 800| ≤ 1 / ((800 : ℕ) : ℚ) ∧
      convert_y 0 800 = 1 ∧ convert_y 800 800 = -1 ∧
      |convert_y (800 / 2) 800| ≤ 1 / ((800 : ℕ) : ℚ) ∧
      convert_x 20 800 = 2 * ((20 : ℕ) : ℚ) / ((800 : ℕ) : ℚ) - 1 ∧
      convert_y 20 800 = 1 - 2 * ((20 : ℕ) : ℚ) / ((800 : ℕ) : ℚ)) :=
  ⟨by norm_num,
    convert_endpoints 20 800 (by norm_num) (by norm_num) (by norm_num)⟩

/-- Counterexample for C3 as stated: the claim quantifies over every u32
max > 0, but at max = 2^31 the u32 product `max * 2` wraps to 0, so
`convert_x(max, max)` is -1, not 1. -/
theorem convert_endpoints_cex :
    0 < 2 ^ 31 ∧ convert_x (2 ^ 31) (2 ^ 31) = -1 ∧
      convert_x (2 ^ 31) (2 ^ 31) ≠ 1 := by
  have h : convert_x (2 ^ 31) (2 ^ 31) = -1 := by
    rw [convert_x]
    norm_num [U32_MOD]
  refine ⟨by norm_num, h, ?_⟩
  rw [h]
  norm_num

/-- Claim C7 (amended): the converters do no bounds checking; for pixel
coordinates strictly beyond max (and below the u32 wrap bound 2^31) the
converted value lies strictly outside [-1, 1]: `convert_x` exceeds 1 and
`convert_y` is below -1.  (At exactly x = max the value is exactly 1, and
for x ≥ 2^31 the u32 doubling wraps; see the counterexample.) -/
theorem out_of_range_conversion (x y max : Nat) (hmax : 0 < max)
    (hx1 : max < x) (hx2 : x < 2 ^ 31) (hy1 : max < y) (hy2 : y < 2 ^ 31) :
    1 < convert_x x max ∧ convert_y y max < -1 := by
  have hmq : (0 : ℚ) < (max : ℚ) := by exact_mod_cast hmax
  constructor
  · rw [convert_x_eq x max hx2]
    have hxq : (max : ℚ) < (x : ℚ) := by exact_mod_cast hx1
    have h2 : (2 : ℚ) < 2 * (x : ℚ) / (max : ℚ) := by
      rw [lt_div_iff₀ hmq]
      linarith
    linarith
  · rw [convert_y_eq y max hy2]
    have hyq : (max : ℚ) < (y : ℚ) := by exact_mod_cast hy1
    have h2 : (2 : ℚ) < 2 * (y : ℚ) / (max : ℚ) := by
      rw [lt_div_iff₀ hmq]
      linarith
    linarith

/-- Witness for C7: the amended out-of-range property at max = 1, x = y = 3. -/
theorem out_of_range_conversion_witness :
    (0 < 1 ∧ 1 < 3 ∧ 3 < 2 ^ 31) ∧
    (1 < convert_x 3 1 ∧ convert_y 3 1 < -1) :=
  ⟨by norm_num,
    out_of_range_conversion 3 3 1 (by norm_num) (by norm_num) (by norm_num)
      (by norm_num) (by norm_num)⟩

/-- Counterexample for C7 as stated: the claim says every coordinate outside
[0, max) — that is, x ≥ max — converts to a value outside [-1, 1], with
convert_x strictly above 1; but at x = max = 1 the converted values are
exactly 1 and -1, inside [-1, 1]. -/
theorem out_of_range_conversion_cex :
    (1 : Nat) ≥ 1 ∧ convert_x 1 1 = 1 ∧ ¬ 1 < convert_x 1 1 ∧
      convert_y 1 1 = -1 ∧ ¬ convert_y 1 1 < -1 := by
  have hx : convert_x 1 1 = 1 := by
    rw [convert_x]
    norm_num [U32_MOD]
  have hy : convert_y 1 1 = -1 := by
    rw [convert_y]
    norm_num [U32_MOD]
  refine ⟨le_refl 1, hx, ?_, hy, ?_⟩
  · rw [hx]
    norm_num
  · rw [hy]
    norm_num

/-- Claim C6: drawing one point at pixel (20, 20) on an 800 by 600 context
with color RED posts a point event whose vertex has position exactly
(-19/20, 14/15) — that is, (-0.95, about 0.9333) — and color (1, 0, 0, 1). -/
theorem point_draw_at_20_20 :
    CanvasContext.draw_point
        { width := 800, height := 600, proxy := { loopExited := false } }
        (20, 20) Color.RED =
      Except.ok (DrawEvent.Point
        { position := (-(19 / 20 : ℚ), (14 / 15 : ℚ)), color := Color.RED }) ∧
    (-(19 / 20 : ℚ)) = -(95 / 100 : ℚ) ∧
    |(14 / 15 : ℚ) - 9333 / 10000| < 1 / 10000 ∧
    Color.RED = Color.rgba 1 0 0 1 := by
  have hx : convert_x 20 800 = -(19 / 20 : ℚ) := by
    rw [convert_x]
    norm_num [U32_MOD]
  have hy : convert_y 20 600 = (14 / 15 : ℚ) := by
    rw [convert_y]
    norm_num [U32_MOD]
  refine ⟨?_, by norm_num, ?_, rfl⟩
  · simp [CanvasContext.draw_point, CanvasContext.convert_point,
      EventLoopProxy.send_event, hx, hy]
  · rw [abs_of_pos (by norm_num)]
    norm_num

end TinyPaint
